import Mathlib

/-!
# Verification of the `trapmail` capture/store subsystem

A shallow embedding of the `trapmail` mail-capture store (`src/lib.rs`,
`src/util.rs`, `src/serde_pid.rs`) together with proofs about its record
model, naming scheme, filter regex, serialization round-trips and
error handling.

Modelling conventions:
* Rust strings, paths, `OsString`s and byte vectors are lists of byte
  values (`RStr`); byte-wise lexicographic comparison models the `Ord`
  instances used by `Vec::sort`.
* The serialized document is modelled at the level of the `serde_json`
  value tree (`Json`): `MailStore::add` writes the value tree produced
  by the derived `Serialize` impls, `Mail::load` parses it back through
  the derived `Deserialize` impls.
* The filesystem is explicit state: a directory is a list of
  (file name, content) entries, where a content is either an I/O error
  token (unreadable file) or a `Json` document.
* The filter regex is matched the way the `regex` crate matches an
  `&str`: the name's bytes are UTF-8-decoded into characters, `\d` is
  the Unicode class `Nd` and the unescaped `.` matches one character.
-/

/-- Rust strings, paths and byte vectors, modelled as lists of byte values. -/
abbrev RStr := List Nat

/-- Byte string of an ASCII string literal (for ASCII, codepoint = byte). -/
def strB (s : String) : RStr := s.toList.map Char.toNat

/-- ASCII decimal digit test: the digits Rust's `Display` prints, and the
`<digits>` of the spec's exact file-name shape. (The regex's `\d` is the
wider Unicode class `Nd`, modelled separately by `isNd`.) -/
def isDigitB (b : Nat) : Bool := 48 ≤ b && b ≤ 57

/-- Little-endian decimal digits of `n`, with explicit fuel so that the
recursion is structural. The fuel `n` itself always suffices. -/
def digitsRevFuel : Nat → Nat → List Nat
  | 0, _ => []
  | _ + 1, 0 => []
  | f + 1, n + 1 => ((n + 1) % 10) :: digitsRevFuel f ((n + 1) / 10)

/-- Little-endian decimal digits of `n` (`[]` for `0`). -/
def natDigitsRev (n : Nat) : List Nat := digitsRevFuel n n

/-- Decimal rendering of a natural number, as produced by Rust's `Display`
for unsigned integers (`format!("{}", n)`). -/
def natDec (n : Nat) : RStr :=
  if n = 0 then [48] else (natDigitsRev n).reverse.map (fun d => 48 + d)

/-- Decimal rendering of a signed number (Rust's `Display` for `i32`,
used by `nix::unistd::Pid`'s `Display`). -/
def intDec (i : Int) : RStr := if i < 0 then 45 :: natDec (-i).toNat else natDec i.toNat

/-- Byte-wise lexicographic strict order — the `Ord` on Rust `str` / `Path`
values that `paths.sort()` uses in `iter_mails` and `read_dir_matching`. -/
def lexLt : RStr → RStr → Bool
  | [], [] => false
  | [], _ :: _ => true
  | _ :: _, [] => false
  | a :: as, b :: bs => if a < b then true else if b < a then false else lexLt as bs

/-- Insert into a lexicographically sorted list of names. -/
def insertLex (x : RStr) : List RStr → List RStr
  | [] => [x]
  | y :: ys => if lexLt x y then x :: y :: ys else y :: insertLex x ys

/-- Model of `paths.sort()`: ascending lexicographic order. -/
def sortLex : List RStr → List RStr
  | [] => []
  | x :: xs => insertLex x (sortLex xs)

/-- UTF-8 continuation byte (`0x80..=0xBF`). -/
def contB (b : Nat) : Bool := 0x80 ≤ b && b ≤ 0xBF

/-- The byte-at-a-time UTF-8 acceptor behind `isValidUtf8`.
`pending` counts continuation bytes still expected; `lo`/`hi` bound the
next continuation byte (only the first continuation of a sequence has a
restricted range — this encodes shortest-form and surrogate exclusion and
the `U+10FFFF` ceiling, exactly the table of Rust's UTF-8 validation). -/
def utf8Scan : List Nat → Nat → Nat → Nat → Bool
  | [], pending, _, _ => pending == 0
  | b :: rest, 0, _, _ =>
    if b ≤ 0x7F then utf8Scan rest 0 0 0
    else if 0xC2 ≤ b && b ≤ 0xDF then utf8Scan rest 1 0x80 0xBF
    else if b = 0xE0 then utf8Scan rest 2 0xA0 0xBF
    else if (0xE1 ≤ b && b ≤ 0xEC) || b = 0xEE || b = 0xEF then utf8Scan rest 2 0x80 0xBF
    else if b = 0xED then utf8Scan rest 2 0x80 0x9F
    else if b = 0xF0 then utf8Scan rest 3 0x90 0xBF
    else if 0xF1 ≤ b && b ≤ 0xF3 then utf8Scan rest 3 0x80 0xBF
    else if b = 0xF4 then utf8Scan rest 3 0x80 0x8F
    else false
  | b :: rest, p + 1, lo, hi =>
    if lo ≤ b && b ≤ hi then utf8Scan rest p 0x80 0xBF else false

/-- UTF-8 validity of a byte sequence, exactly as checked by Rust's
`String::from_utf8` (shortest forms only, no surrogates, max `U+10FFFF`). -/
def isValidUtf8 (l : List Nat) : Bool := utf8Scan l 0 0 0

/-- Decoding companion of `utf8Scan`: the same byte-at-a-time state
machine, additionally accumulating the scalar value being decoded
(`acc`) and emitting it when its last continuation byte arrives. -/
def utf8DecScan : List Nat → Nat → Nat → Nat → Nat → Option (List Nat)
  | [], pending, _, _, _ => if pending == 0 then some [] else none
  | b :: rest, 0, _, _, _ =>
    if b ≤ 0x7F then (utf8DecScan rest 0 0 0 0).map (fun cs => b :: cs)
    else if 0xC2 ≤ b && b ≤ 0xDF then utf8DecScan rest 1 0x80 0xBF (b - 0xC0)
    else if b = 0xE0 then utf8DecScan rest 2 0xA0 0xBF 0
    else if (0xE1 ≤ b && b ≤ 0xEC) || b = 0xEE || b = 0xEF then
      utf8DecScan rest 2 0x80 0xBF (b - 0xE0)
    else if b = 0xED then utf8DecScan rest 2 0x80 0x9F (b - 0xE0)
    else if b = 0xF0 then utf8DecScan rest 3 0x90 0xBF 0
    else if 0xF1 ≤ b && b ≤ 0xF3 then utf8DecScan rest 3 0x80 0xBF (b - 0xF0)
    else if b = 0xF4 then utf8DecScan rest 3 0x80 0x8F (b - 0xF0)
    else none
  | b :: rest, 1, lo, hi, acc =>
    if lo ≤ b && b ≤ hi then
      (utf8DecScan rest 0 0 0 0).map (fun cs => (acc * 64 + (b - 0x80)) :: cs)
    else none
  | b :: rest, p + 2, lo, hi, acc =>
    if lo ≤ b && b ≤ hi then utf8DecScan rest (p + 1) 0x80 0xBF (acc * 64 + (b - 0x80))
    else none

/-- Decode a UTF-8 byte string into its character (Unicode scalar value)
sequence — the `&str` the regex crate matches on; `none` on invalid
input. -/
def utf8Decode (l : List Nat) : Option (List Nat) := utf8DecScan l 0 0 0 0

/-- The ranges of the Unicode general category `Nd` (decimal number) —
the class the regex crate's default `\d` matches (Unicode 14.0 table;
later Unicode versions only add further ranges of the same ten-digit
shape for newly encoded scripts). -/
def ndRanges : List (Nat × Nat) :=
  [(0x30, 0x39), (0x660, 0x669), (0x6F0, 0x6F9), (0x7C0, 0x7C9), (0x966, 0x96F),
   (0x9E6, 0x9EF), (0xA66, 0xA6F), (0xAE6, 0xAEF), (0xB66, 0xB6F), (0xBE6, 0xBEF),
   (0xC66, 0xC6F), (0xCE6, 0xCEF), (0xD66, 0xD6F), (0xDE6, 0xDEF), (0xE50, 0xE59),
   (0xED0, 0xED9), (0xF20, 0xF29), (0x1040, 0x1049), (0x1090, 0x1099), (0x17E0, 0x17E9),
   (0x1810, 0x1819), (0x1946, 0x194F), (0x19D0, 0x19D9), (0x1A80, 0x1A89),
   (0x1A90, 0x1A99), (0x1B50, 0x1B59), (0x1BB0, 0x1BB9), (0x1C40, 0x1C49),
   (0x1C50, 0x1C59), (0xA620, 0xA629), (0xA8D0, 0xA8D9), (0xA900, 0xA909),
   (0xA9D0, 0xA9D9), (0xA9F0, 0xA9F9), (0xAA50, 0xAA59), (0xABF0, 0xABF9),
   (0xFF10, 0xFF19), (0x104A0, 0x104A9), (0x10D30, 0x10D39), (0x11066, 0x1106F),
   (0x110F0, 0x110F9), (0x11136, 0x1113F), (0x111D0, 0x111D9), (0x112F0, 0x112F9),
   (0x11450, 0x11459), (0x114D0, 0x114D9), (0x11650, 0x11659), (0x116C0, 0x116C9),
   (0x11730, 0x11739), (0x118E0, 0x118E9), (0x11950, 0x11959), (0x11C50, 0x11C59),
   (0x11D50, 0x11D59), (0x11DA0, 0x11DA9), (0x16A60, 0x16A69), (0x16AC0, 0x16AC9),
   (0x16B50, 0x16B59), (0x1D7CE, 0x1D7FF), (0x1E140, 0x1E149), (0x1E2F0, 0x1E2F9),
   (0x1E950, 0x1E959), (0x1FBF0, 0x1FBF9)]

/-- Unicode `\d` (`\p{Nd}`) on one character. -/
def isNd (c : Nat) : Bool := ndRanges.any (fun r => r.1 ≤ c && c ≤ r.2)

/-- Test `leadsWith p s`: `p` is an initial segment of `s`. -/
def leadsWith : RStr → RStr → Bool
  | [], _ => true
  | _ :: _, [] => false
  | a :: as, b :: bs => a == b && leadsWith as bs

/-- Tail of `FILENAME_RE` after the third digit group, over the name's
*characters*: the regex source `trapmail_\d+_\d+_\d+.json` has an
*unescaped* dot, so one arbitrary non-newline character is followed by
the literal `json`. -/
def dotJson : List Nat → Bool
  | [] => false
  | c :: rest => c != 10 && leadsWith (strB "json") rest

/-- Third group of `FILENAME_RE`: `\d+` (Unicode `Nd` characters)
followed by `.json` (unescaped dot), trying every possible length ≥ 1
for the digit group. -/
def digitsDotJson : List Nat → Bool
  | [] => false
  | c :: rest => isNd c && (dotJson rest || digitsDotJson rest)

/-- Match `FILENAME_RE` = `trapmail_\d+_\d+_\d+.json` against the
character sequence `s`, starting exactly at its head. The first two
`\d+` groups are each followed by the literal `_`, which is not an `Nd`
character, so maximal munch is forced for them. -/
def matchHere (s : List Nat) : Bool :=
  leadsWith (strB "trapmail_") s &&
    (let t := s.drop 9
     !(t.takeWhile isNd).isEmpty &&
       match t.dropWhile isNd with
       | 95 :: t2 =>
         !(t2.takeWhile isNd).isEmpty &&
           (match t2.dropWhile isNd with
            | 95 :: t4 => digitsDotJson t4
            | _ => false)
       | _ => false)

/-- Unanchored match of `FILENAME_RE` over a character sequence: a match
may start at any position. -/
def reMatchChars : List Nat → Bool
  | [] => matchHere []
  | c :: rest => matchHere (c :: rest) || reMatchChars rest

/-- Model of `FILENAME_RE.is_match(name)`: the regex crate matches the
`&str`, i.e. the character sequence the name's bytes decode to, with
Unicode semantics (`\d` = `Nd`, the unescaped `.` = any one character
other than `\n`), unanchored. The `none` branch is unreachable in the
store: the filter is only ever applied to names whose `into_string`
succeeded. -/
def filename_re_is_match (name : RStr) : Bool :=
  match utf8Decode name with
  | some cs => reMatchChars cs
  | none => false

/-- Modelled from the spec's words (for comparison with `FILENAME_RE`):
a name of *exactly* the shape `trapmail_<digits>_<digits>_<digits>.json`,
nothing before or after. -/
def trapmailExactShape (s : RStr) : Bool :=
  leadsWith (strB "trapmail_") s &&
    (let t := s.drop 9
     !(t.takeWhile isDigitB).isEmpty &&
       match t.dropWhile isDigitB with
       | 95 :: t2 =>
         !(t2.takeWhile isDigitB).isEmpty &&
           (match t2.dropWhile isDigitB with
            | 95 :: t4 =>
              !(t4.takeWhile isDigitB).isEmpty && t4.dropWhile isDigitB == strB ".json"
            | _ => false)
       | _ => false)

/-- Command-line options (`CliOptions`); `dump` is an `Option<PathBuf>`. -/
structure CliOptions where
  debug : Bool
  ignore_dots : Bool
  inline_recipients : Bool
  addresses : List RStr
  dump : Option RStr
deriving DecidableEq

/-- An email body (`MailBody`): either valid UTF-8 text (stored as its
byte content — Rust's `String` is a byte vector that is valid UTF-8) or
arbitrary raw bytes. -/
inductive MailBody where
  | Utf8 (s : RStr)
  | Invalid (bytes : RStr)
deriving DecidableEq

/-- Model of `String::from_utf8`: validates and hands back the very same bytes,
either as the string (`ok`) or inside the error value, whose
`into_bytes` recovers the original vector. -/
def stringFromUtf8 (raw : RStr) : Except RStr RStr :=
  if isValidUtf8 raw then .ok raw else .error raw

/-- Model of `MailBody::from_raw`. -/
def MailBody.from_raw (raw_body : RStr) : MailBody :=
  match stringFromUtf8 raw_body with
  | .ok s => .Utf8 s
  | .error e => .Invalid e

/-- The underlying byte content of a body. -/
def MailBody.bytes : MailBody → RStr
  | .Utf8 s => s
  | .Invalid bs => bs

/-- A captured mail (`Mail`). Pids are `i32` values (modelled as `Int`
with the range invariant carried by `Mail.WF`); the timestamp is `u128`. -/
structure Mail where
  cli_options : CliOptions
  pid : Int
  ppid : Int
  body : MailBody
  timestamp_us : Nat
deriving DecidableEq

/-- The `i32` range. -/
def i32Range (i : Int) : Prop := -(2 ^ 31) ≤ i ∧ i < 2 ^ 31

instance (i : Int) : Decidable (i32Range i) := by
  unfold i32Range; infer_instance

/-- Well-formed body: a `String` body is valid UTF-8 (Rust's `String`
invariant), a raw body is a `Vec<u8>` (every entry a byte). -/
def MailBody.wfB : MailBody → Bool
  | .Utf8 s => isValidUtf8 s
  | .Invalid bs => bs.all (fun b => b < 256)

/-- Well-formed `Option<PathBuf>`: a present path is valid UTF-8 (the
condition under which serde can serialize a `Path`). -/
def dumpWfB : Option RStr → Bool
  | none => true
  | some p => isValidUtf8 p

/-- The representation invariants that the Rust types enforce by
construction: pids are `i32`, the timestamp fits `u128`, a `String`
(text body, address, dump path) is valid UTF-8, raw bodies hold bytes. -/
def Mail.WF (m : Mail) : Prop :=
  i32Range m.pid ∧ i32Range m.ppid ∧ m.timestamp_us < 2 ^ 128 ∧
  m.body.wfB = true ∧ m.cli_options.addresses.all isValidUtf8 = true ∧
  dumpWfB m.cli_options.dump = true

instance (m : Mail) : Decidable m.WF := by
  unfold Mail.WF; infer_instance

/-- Model of `Mail::file_name`: `format!("trapmail_{}_{}_{}.json", timestamp_us, ppid, pid)`. -/
def Mail.file_name (m : Mail) : RStr :=
  strB "trapmail_" ++ natDec m.timestamp_us ++ [95] ++ intDec m.ppid ++ [95]
    ++ intDec m.pid ++ strB ".json"

/-- The `serde_json` value tree. Strings are byte strings; numbers are
integers (the only numbers this program ever writes or expects). -/
inductive Json where
  | null
  | bool (b : Bool)
  | num (n : Int)
  | str (s : RStr)
  | arr (elems : List Json)
  | obj (fields : List (RStr × Json))

/-- Serialize `MailBody` (derived impl: externally tagged enum;
`serde_bytes` writes a `Vec<u8>` as a JSON array of numbers). -/
def MailBody.toJson : MailBody → Json
  | .Utf8 s => .obj [(strB "Utf8", .str s)]
  | .Invalid bs => .obj [(strB "Invalid", .arr (bs.map (fun b => .num (Int.ofNat b))))]

/-- Serialize a `PathBuf`: written as a string when valid UTF-8, a
serialization error otherwise. -/
def pathToJson (p : RStr) : Except Unit Json :=
  if isValidUtf8 p then .ok (.str p) else .error ()

/-- Serialize `CliOptions` (derived impl, fields in declaration order;
an `Option` is `null` or the bare value). -/
def CliOptions.toJson (o : CliOptions) : Except Unit Json := do
  let dumpJ ← match o.dump with
    | none => pure Json.null
    | some p => pathToJson p
  pure (.obj [(strB "debug", .bool o.debug),
              (strB "ignore_dots", .bool o.ignore_dots),
              (strB "inline_recipients", .bool o.inline_recipients),
              (strB "addresses", .arr (o.addresses.map .str)),
              (strB "dump", dumpJ)])

/-- Serialize `Mail` (derived impl; pids via `serde_pid`, i.e. as their
raw `i32` value). -/
def Mail.toJson (m : Mail) : Except Unit Json := do
  let cliJ ← m.cli_options.toJson
  pure (.obj [(strB "cli_options", cliJ),
              (strB "pid", .num m.pid),
              (strB "ppid", .num m.ppid),
              (strB "body", m.body.toJson),
              (strB "timestamp_us", .num (Int.ofNat m.timestamp_us))])

/-- Deserialize a `bool`. -/
def jBool : Json → Option Bool
  | .bool b => some b
  | _ => none

/-- Deserialize a `String`. -/
def jStr : Json → Option RStr
  | .str s => some s
  | _ => none

/-- Deserialize an `i32` (`i32::deserialize`, as `serde_pid` calls it):
a JSON integer within `i32` range. -/
def jI32 : Json → Option Int
  | .num n => if -(2 ^ 31) ≤ n ∧ n < 2 ^ 31 then some n else none
  | _ => none

/-- Deserialize a `u128`: a non-negative JSON integer below `2^128`. -/
def jU128 : Json → Option Nat
  | .num n => if 0 ≤ n ∧ n < 2 ^ 128 then some n.toNat else none
  | _ => none

/-- Deserialize one byte of a `serde_bytes` vector. -/
def jByte : Json → Option Nat
  | .num n => if 0 ≤ n ∧ n < 256 then some n.toNat else none
  | _ => none

/-- Deserialize a `Vec<String>` element list. -/
def jStrList : List Json → Option (List RStr)
  | [] => some []
  | j :: js =>
    match jStr j, jStrList js with
    | some s, some rest => some (s :: rest)
    | _, _ => none

/-- Deserialize a `serde_bytes` byte list. -/
def jByteList : List Json → Option (List Nat)
  | [] => some []
  | j :: js =>
    match jByte j, jByteList js with
    | some b, some rest => some (b :: rest)
    | _, _ => none

/-- Deserialize an `Option<PathBuf>`: `null` or a string. -/
def jDump : Json → Option (Option RStr)
  | .null => some none
  | .str s => some (some s)
  | _ => none

/-- Field access in a serialized struct (derived deserializers accept
each field by name). -/
def jField (fields : List (RStr × Json)) (k : RStr) : Option Json :=
  (fields.find? (fun p => p.1 == k)).map (fun p => p.2)

/-- An `Option` bind, written first-order (the `?` chains of the derived
deserializers). -/
def oBind {A B : Type} : Option A → (A → Option B) → Option B
  | some a, f => f a
  | none, _ => none

/-- Deserialize a `Vec<String>`. -/
def jAddrs : Json → Option (List RStr)
  | .arr es => jStrList es
  | _ => none

/-- Deserialize `CliOptions` (derived impl). -/
def CliOptions.fromJson : Json → Option CliOptions
  | .obj fields =>
    oBind (oBind (jField fields (strB "debug")) jBool) fun d =>
    oBind (oBind (jField fields (strB "ignore_dots")) jBool) fun ig =>
    oBind (oBind (jField fields (strB "inline_recipients")) jBool) fun ir =>
    oBind (oBind (jField fields (strB "addresses")) jAddrs) fun addrs =>
    oBind (oBind (jField fields (strB "dump")) jDump) fun dmp =>
    some (CliOptions.mk d ig ir addrs dmp)
  | _ => none

/-- Deserialize `MailBody` (externally tagged: an object with exactly one
variant key). -/
def MailBody.fromJson : Json → Option MailBody
  | .obj [(k, v)] =>
    if k == strB "Utf8" then (jStr v).map .Utf8
    else if k == strB "Invalid" then
      match v with
      | .arr es => (jByteList es).map .Invalid
      | _ => none
    else none
  | _ => none

/-- Deserialize `Mail` (derived impl). -/
def Mail.fromJson : Json → Option Mail
  | .obj fields =>
    oBind (oBind (jField fields (strB "cli_options")) CliOptions.fromJson) fun cli =>
    oBind (oBind (jField fields (strB "pid")) jI32) fun pid =>
    oBind (oBind (jField fields (strB "ppid")) jI32) fun ppid =>
    oBind (oBind (jField fields (strB "body")) MailBody.fromJson) fun body =>
    oBind (oBind (jField fields (strB "timestamp_us")) jU128) fun ts =>
    some (Mail.mk cli pid ppid body ts)
  | _ => none

/-- I/O error tokens (the payloads of `io::Error` values). -/
abbrev IoErr := Nat

/-- The error taxonomy of `lib.rs` (`enum Error`); the serde error
payloads carry nothing the model needs. -/
inductive Error where
  | Store (e : IoErr)
  | MailSerialization
  | DirEnumeration (e : IoErr)
  | Load (e : IoErr)
  | MailDeserialization
deriving DecidableEq

/-- A stored file's content: an I/O error token (file cannot be
opened/read) or the JSON document its text parses to. A file whose text
is not a well-formed document of the expected shape is modelled as a
`Json` value on which `Mail.fromJson` fails. -/
abbrev FileContent := Except IoErr Json

/-- Model of `Mail::load`: open the file (`Error::Load` on failure), then
deserialize it (`Error::MailDeserialization` on failure). -/
def Mail.load (content : FileContent) : Except Error Mail :=
  match content with
  | .error e => .error (.Load e)
  | .ok j =>
    match Mail.fromJson j with
    | some m => .ok m
    | none => .error .MailDeserialization

/-- The constant `DEFAULT_MAIL_STORE_PATH`, the fallback when the `TRAPMAIL_STORE`
environment variable is absent. -/
def DEFAULT_MAIL_STORE_PATH : RStr := strB "/tmp"

/-- The `MailStore`: owns nothing but the root path. -/
structure MailStore where
  root : RStr
deriving DecidableEq

/-- Model of `MailStore::with_root`. -/
def MailStore.with_root (root : RStr) : MailStore := MailStore.mk root

/-- Model of `MailStore::new`: root from the `TRAPMAIL_STORE` environment variable
(`none` models an absent/unusable variable), falling back to `/tmp`. -/
def MailStore.new (envVar : Option RStr) : MailStore :=
  MailStore.with_root (envVar.getD DEFAULT_MAIL_STORE_PATH)

/-- One directory entry: the file name as the OS hands it out (an
arbitrary byte string — `OsString`) and the file's content. -/
abbrev DirEntry := RStr × FileContent

/-- The result of `fs::read_dir` with its per-entry results: opening the
directory may fail, and so may each entry read. -/
abbrev DirListing := Except IoErr (List (Except IoErr DirEntry))

/-- Replace the entry named `n` (`File::create` truncates an existing
file) or create a new one. -/
def dirUpsert (entries : List DirEntry) (n : RStr) (c : FileContent) : List DirEntry :=
  match entries with
  | [] => [(n, c)]
  | (n', c') :: rest => if n' == n then (n, c) :: rest else (n', c') :: dirUpsert rest n c

/-- Model of `MailStore::add`, acting on the root directory's contents.
`createRes` is the environment's answer to `fs::File::create` (fails on
missing directory, permissions, …). Returns the function's `Result`
together with the directory after the call. A create that succeeds but
whose serialization then fails leaves a created-but-empty file behind,
whose text is not a well-formed document (content `.ok .null`, which
`Mail.fromJson` rejects). -/
def MailStore.add (store : MailStore) (m : Mail) (entries : List DirEntry)
    (createRes : Except IoErr Unit) : Except Error RStr × List DirEntry :=
  match createRes with
  | .error e => (.error (.Store e), entries)
  | .ok _ =>
    match m.toJson with
    | .ok j =>
      (.ok (store.root ++ [47] ++ m.file_name), dirUpsert entries m.file_name (.ok j))
    | .error _ => (.error .MailSerialization, dirUpsert entries m.file_name (.ok .null))

/-- The loop of `iter_mails` that gathers file names before sorting:
entries are walked in order; a failed entry read becomes a terminal
`DirEnumeration` error (the `?` in the loop); a non-unicode name panics
(`Option.none` — the `.expect` in `iter_mails`); every other name is kept
iff `FILENAME_RE` accepts it. -/
def collectNames : List (Except IoErr DirEntry) → Option (Except Error (List RStr))
  | [] => some (.ok [])
  | .error e :: _ => some (.error (.DirEnumeration e))
  | .ok (name, _) :: rest =>
    if isValidUtf8 name then
      match collectNames rest with
      | none => none
      | some (.error e) => some (.error e)
      | some (.ok ns) => some (.ok (if filename_re_is_match name then name :: ns else ns))
    else none

/-- Resolve a file name against the directory (the `Mail::load` call
opens `root.join(name)`); a vanished file reads as an I/O failure. -/
def findContent (entries : List (Except IoErr DirEntry)) (n : RStr) : FileContent :=
  match entries with
  | [] => .error 0
  | .error _ :: rest => findContent rest n
  | .ok (name, c) :: rest => if name == n then c else findContent rest n

/-- Model of `MailStore::iter_mails`, as the elements its iterator will yield.
`none` models a panic (the `.expect` on a non-unicode file name);
otherwise the function's own `Result`: the directory-open failure, or the
lexicographically sorted sequence of per-file load results. -/
def MailStore.iter_mails (listing : DirListing) :
    Option (Except Error (List (Except Error Mail))) :=
  match listing with
  | .error e => some (.error (.DirEnumeration e))
  | .ok entries =>
    match collectNames entries with
    | none => none
    | some (.error e) => some (.error e)
    | some (.ok names) =>
      some (.ok ((sortLex names).map (fun n => Mail.load (findContent entries n))))

/-- Model of `flatten_results` and the `FlattenResult` iterator (util.rs): the
sequence the adapter yields — the single terminal error, or the inner
iterator's elements. -/
def flatten_results {E α : Type} : Except E (List (Except E α)) → List (Except E α)
  | .error e => [.error e]
  | .ok l => l

/-- The error type `DirReadError` (util.rs). -/
inductive DirReadError where
  | DirReadFailed (e : IoErr)
  | CouldNotReadEntry (e : IoErr)
  | NonUnicodeFilename (name : RStr)
deriving DecidableEq

/-- The entry loop of `read_dir_matching` (util.rs): any per-entry
failure — a failed entry read or a non-unicode file name — aborts the
whole scan through `?`. -/
def collectMatching (filter : RStr → Bool) :
    List (Except IoErr DirEntry) → Except DirReadError (List RStr)
  | [] => .ok []
  | .error e :: _ => .error (.CouldNotReadEntry e)
  | .ok (name, _) :: rest =>
    if isValidUtf8 name then
      (collectMatching filter rest).map
        (fun ns => if filter name then name :: ns else ns)
    else .error (.NonUnicodeFilename name)

/-- Model of `read_dir_matching` (util.rs): the sorted list of file names in the
listing that match `filter`. -/
def read_dir_matching (listing : DirListing) (filter : RStr → Bool) :
    Except DirReadError (List RStr) :=
  match listing with
  | .error e => .error (.DirReadFailed e)
  | .ok entries => (collectMatching filter entries).map sortLex

/-- The wall clock, in nanoseconds since the Unix epoch. Sequential calls
thread this state; the model takes the clock to be monotone (arbitrary
extra time may pass, but time never runs backwards). -/
structure Clock where
  now_ns : Nat
deriving DecidableEq

/-- Model of `Mail::new`: sleep at least one microsecond
(`thread::sleep(Duration::from_nanos(1000))`), then read the clock at
microsecond resolution. `elapsed` is whatever extra time the sleep and
the scheduler took beyond the guaranteed 1000 ns. The calling process's
ids are parameters (`Pid::this()`, `Pid::parent()`). -/
def Mail.new (cli_options : CliOptions) (raw_body : RStr) (pid ppid : Int)
    (c : Clock) (elapsed : Nat) : Mail × Clock :=
  let t := c.now_ns + 1000 + elapsed
  (Mail.mk cli_options pid ppid (MailBody.from_raw raw_body) (t / 1000), Clock.mk t)

/-! ## Decimal rendering: agreement with `Nat.digits`, order and injectivity -/

theorem digitsRevFuel_eq {f n : Nat} (h : n ≤ f) : digitsRevFuel f n = Nat.digits 10 n := by
  induction f generalizing n with
  | zero =>
    have hn : n = 0 := by omega
    subst hn
    simp [digitsRevFuel]
  | succ f ih =>
    match n with
    | 0 => simp [digitsRevFuel]
    | n + 1 =>
      have hdiv : (n + 1) / 10 ≤ f := by
        have := Nat.div_lt_self (Nat.succ_pos n) (by norm_num : 1 < 10)
        omega
      rw [digitsRevFuel, ih hdiv, Nat.digits_def' (by norm_num : 1 < 10) (Nat.succ_pos n)]

theorem natDigitsRev_eq (n : Nat) : natDigitsRev n = Nat.digits 10 n :=
  digitsRevFuel_eq (Nat.le_refl n)

/-- Big-endian decimal digits, `[0]` for zero (the digits Rust prints). -/
def natDigitsBE (n : Nat) : List Nat :=
  if n = 0 then [0] else (natDigitsRev n).reverse

theorem natDec_eq_map (n : Nat) : natDec n = (natDigitsBE n).map (fun d => 48 + d) := by
  unfold natDec natDigitsBE
  split <;> simp

/-- Value of a big-endian digit list. -/
def valBE : List Nat → Nat
  | [] => 0
  | d :: ds => d * 10 ^ ds.length + valBE ds

theorem valBE_append_last (l : List Nat) (d : Nat) : valBE (l ++ [d]) = 10 * valBE l + d := by
  induction l with
  | nil => simp [valBE]
  | cons x xs ih =>
    simp only [List.cons_append, valBE, ih, List.append_eq, List.length_append,
      List.length_cons, List.length_nil]
    ring

theorem valBE_reverse_digits (n : Nat) : valBE ((Nat.digits 10 n).reverse) = n := by
  induction n using Nat.strong_induction_on with
  | _ n ih =>
    match n with
    | 0 => simp [valBE]
    | n + 1 =>
      rw [Nat.digits_def' (by norm_num : 1 < 10) (Nat.succ_pos n), List.reverse_cons,
        valBE_append_last,
        ih ((n + 1) / 10) (Nat.div_lt_self (Nat.succ_pos n) (by norm_num : 1 < 10))]
      exact Nat.div_add_mod (n + 1) 10

theorem valBE_natDigitsBE (n : Nat) : valBE (natDigitsBE n) = n := by
  unfold natDigitsBE
  split
  · simp only [valBE]
    omega
  · rw [natDigitsRev_eq]
    exact valBE_reverse_digits n

theorem natDigitsBE_lt_ten (n : Nat) : ∀ d ∈ natDigitsBE n, d < 10 := by
  unfold natDigitsBE
  split
  · intro d hd
    simp only [List.mem_singleton] at hd
    omega
  · intro d hd
    rw [natDigitsRev_eq, List.mem_reverse] at hd
    exact Nat.digits_lt_base (by norm_num) hd

theorem valBE_lt_pow (l : List Nat) (h : ∀ d ∈ l, d < 10) : valBE l < 10 ^ l.length := by
  induction l with
  | nil => simp [valBE]
  | cons d ds ih =>
    have hd : d < 10 := h d (List.mem_cons_self _ _)
    have hds := ih (fun x hx => h x (List.mem_cons_of_mem _ hx))
    have hstep : (d + 1) * 10 ^ ds.length ≤ 10 * 10 ^ ds.length :=
      Nat.mul_le_mul_right _ (by omega)
    calc valBE (d :: ds) = d * 10 ^ ds.length + valBE ds := rfl
      _ < d * 10 ^ ds.length + 10 ^ ds.length := by omega
      _ = (d + 1) * 10 ^ ds.length := by ring
      _ ≤ 10 * 10 ^ ds.length := hstep
      _ = 10 ^ (d :: ds).length := by
          simp [List.length_cons, pow_succ]
          ring

theorem lexLt_of_valBE_lt (l1 : List Nat) : ∀ l2 : List Nat, l1.length = l2.length →
    (∀ d ∈ l1, d < 10) → (∀ d ∈ l2, d < 10) →
    valBE l1 < valBE l2 → lexLt l1 l2 = true := by
  induction l1 with
  | nil =>
    intro l2 hlen _ _ hv
    cases l2 with
    | nil => simp [valBE] at hv
    | cons b bs => simp at hlen
  | cons a as ih =>
    intro l2 hlen h1 h2 hv
    cases l2 with
    | nil => simp at hlen
    | cons b bs =>
      have hk : as.length = bs.length := by simpa using hlen
      by_cases hab : a < b
      · simp [lexLt, hab]
      · by_cases hba : b < a
        · exfalso
          have hbs := valBE_lt_pow bs (fun x hx => h2 x (List.mem_cons_of_mem _ hx))
          have hv1 : valBE (a :: as) = a * 10 ^ bs.length + valBE as := by
            simp [valBE, hk]
          have hv2 : valBE (b :: bs) = b * 10 ^ bs.length + valBE bs := rfl
          have hmul : (b + 1) * 10 ^ bs.length ≤ a * 10 ^ bs.length :=
            Nat.mul_le_mul_right _ (by omega)
          have hsucc : (b + 1) * 10 ^ bs.length = b * 10 ^ bs.length + 10 ^ bs.length := by
            ring
          rw [hv1, hv2] at hv
          omega
        · have hab' : a = b := by omega
          subst hab'
          have hrec : lexLt as bs = true := by
            apply ih bs hk (fun x hx => h1 x (List.mem_cons_of_mem _ hx))
              (fun x hx => h2 x (List.mem_cons_of_mem _ hx))
            have hv1 : valBE (a :: as) = a * 10 ^ bs.length + valBE as := by
              simp [valBE, hk]
            have hv2 : valBE (a :: bs) = a * 10 ^ bs.length + valBE bs := rfl
            rw [hv1, hv2] at hv
            omega
          simp [lexLt, Nat.lt_irrefl, hrec]

theorem lexLt_map_add (c : Nat) (l1 : List Nat) : ∀ l2 : List Nat,
    lexLt (l1.map (fun d => c + d)) (l2.map (fun d => c + d)) = lexLt l1 l2 := by
  induction l1 with
  | nil => intro l2; cases l2 <;> simp [lexLt]
  | cons a as ih =>
    intro l2
    cases l2 with
    | nil => simp [lexLt]
    | cons b bs =>
      simp only [List.map_cons, lexLt, Nat.add_lt_add_iff_left, ih bs]

theorem natDec_length_eq (n : Nat) : (natDec n).length = (natDigitsBE n).length := by
  rw [natDec_eq_map]
  simp

theorem natDec_lt_of_lt {n1 n2 : Nat} (hlen : (natDec n1).length = (natDec n2).length)
    (h : n1 < n2) : lexLt (natDec n1) (natDec n2) = true := by
  rw [natDec_eq_map, natDec_eq_map, lexLt_map_add]
  apply lexLt_of_valBE_lt
  · have e1 := natDec_length_eq n1
    have e2 := natDec_length_eq n2
    omega
  · exact natDigitsBE_lt_ten n1
  · exact natDigitsBE_lt_ten n2
  · rw [valBE_natDigitsBE, valBE_natDigitsBE]
    exact h

theorem natDec_inj {n1 n2 : Nat} (h : natDec n1 = natDec n2) : n1 = n2 := by
  have hmap : natDigitsBE n1 = natDigitsBE n2 := by
    have hinj : Function.Injective (fun d : Nat => 48 + d) := fun a b hab => by
      dsimp only at hab
      omega
    have h2 : (natDigitsBE n1).map (fun d => 48 + d) = (natDigitsBE n2).map (fun d => 48 + d) := by
      rw [← natDec_eq_map, ← natDec_eq_map]
      exact h
    exact List.map_injective_iff.mpr hinj h2
  calc n1 = valBE (natDigitsBE n1) := (valBE_natDigitsBE n1).symm
    _ = valBE (natDigitsBE n2) := by rw [hmap]
    _ = n2 := valBE_natDigitsBE n2

/-! ## Lexicographic order: structural lemmas -/

theorem lexLt_append_left (p : RStr) : ∀ x y : RStr, lexLt (p ++ x) (p ++ y) = lexLt x y := by
  induction p with
  | nil => intro x y; rfl
  | cons a as ih =>
    intro x y
    simp only [List.cons_append, lexLt, Nat.lt_irrefl, if_false, List.append_eq, ih]

theorem lexLt_append_of_lt (u v : RStr) (x : RStr) : ∀ y : RStr, x.length = y.length →
    lexLt x y = true → lexLt (x ++ u) (y ++ v) = true := by
  induction x with
  | nil =>
    intro y hlen h
    cases y with
    | nil => simp [lexLt] at h
    | cons b bs => simp at hlen
  | cons a as ih =>
    intro y hlen h
    cases y with
    | nil => simp at hlen
    | cons b bs =>
      have hk : as.length = bs.length := by simpa using hlen
      simp only [List.cons_append, lexLt] at h ⊢
      by_cases hab : a < b
      · simp [hab]
      · by_cases hba : b < a
        · simp [hab, hba] at h
        · simp only [hab, hba, if_false] at h ⊢
          exact ih bs hk h

theorem lexLt_asymm (x : RStr) : ∀ y : RStr, lexLt x y = true → lexLt y x = false := by
  induction x with
  | nil =>
    intro y h
    cases y with
    | nil => simp [lexLt] at h
    | cons b bs => simp [lexLt]
  | cons a as ih =>
    intro y h
    cases y with
    | nil => simp [lexLt] at h
    | cons b bs =>
      simp only [lexLt] at h ⊢
      by_cases hab : a < b
      · have hba : ¬ b < a := Nat.lt_asymm hab
        simp [hab, hba]
      · by_cases hba : b < a
        · simp [hab, hba] at h
        · simp only [hab, hba, if_false] at h ⊢
          exact ih bs h

/-! ## File-name ordering (claims C3, C8) -/

theorem intDec_nonneg {i : Int} (h : 0 ≤ i) : intDec i = natDec i.toNat := by
  unfold intDec
  split
  · omega
  · rfl

/-- The file name regrouped around the timestamp component. -/
theorem file_name_decomp (m : Mail) :
    m.file_name = strB "trapmail_" ++ (natDec m.timestamp_us ++
      ([95] ++ (intDec m.ppid ++ ([95] ++ (intDec m.pid ++ strB ".json"))))) := by
  simp [Mail.file_name, List.append_assoc]

theorem file_name_lt_of_timestamp_lt {m1 m2 : Mail}
    (hlen : (natDec m1.timestamp_us).length = (natDec m2.timestamp_us).length)
    (hts : m1.timestamp_us < m2.timestamp_us) :
    lexLt m1.file_name m2.file_name = true := by
  rw [file_name_decomp m1, file_name_decomp m2, lexLt_append_left]
  exact lexLt_append_of_lt _ _ _ _ hlen (natDec_lt_of_lt hlen hts)

theorem file_name_inj_timestamp {m1 m2 : Mail}
    (hpid : m1.pid = m2.pid) (hppid : m1.ppid = m2.ppid)
    (hfn : m1.file_name = m2.file_name) : m1.timestamp_us = m2.timestamp_us := by
  rw [file_name_decomp m1, file_name_decomp m2, hpid, hppid] at hfn
  exact natDec_inj (List.append_cancel_right (List.append_cancel_left hfn))

/-- Claim C3, amended: the decimal timestamp leads the file name but is
*not* zero-padded, so lexicographic file-name order agrees with timestamp
order exactly on records whose timestamps print with the same number of
decimal digits (true of any two real microsecond timestamps of the same
era) and differ: for such records, `file_name r1 < file_name r2`
lexicographically iff `r1.timestamp_us < r2.timestamp_us`. -/
theorem file_name_order_eq_timestamp_order (m1 m2 : Mail)
    (hlen : (natDec m1.timestamp_us).length = (natDec m2.timestamp_us).length)
    (hne : m1.timestamp_us ≠ m2.timestamp_us) :
    (lexLt m1.file_name m2.file_name = true ↔ m1.timestamp_us < m2.timestamp_us) := by
  constructor
  · intro h
    rcases Nat.lt_or_ge m1.timestamp_us m2.timestamp_us with hlt | hge
    · exact hlt
    · exfalso
      have hgt : m2.timestamp_us < m1.timestamp_us := by omega
      have h2 := lexLt_asymm _ _ (file_name_lt_of_timestamp_lt hlen.symm hgt)
      simp [h] at h2
  · exact file_name_lt_of_timestamp_lt hlen

/-- Claim C3 counterexample: timestamps `10` and `9` (identical pids) give
`file_name r1 < file_name r2` lexicographically — the digit `1` sorts
before `9` — even though `r1`'s timestamp is the *larger* one, refuting
the claimed equivalence for arbitrary valid file names. -/
theorem file_name_order_counterexample :
    lexLt (Mail.mk (CliOptions.mk false false false [] none) 1 1 (.Utf8 []) 10).file_name
        (Mail.mk (CliOptions.mk false false false [] none) 1 1 (.Utf8 []) 9).file_name
      = true ∧
    ¬ ((Mail.mk (CliOptions.mk false false false [] none) 1 1 (.Utf8 []) 10).timestamp_us <
        (Mail.mk (CliOptions.mk false false false [] none) 1 1 (.Utf8 []) 9).timestamp_us) := by
  decide

/-- Witness for the amended C3 theorem at timestamps `3 < 5`. -/
theorem file_name_order_eq_timestamp_order_witness :
    (lexLt (Mail.mk (CliOptions.mk false false false [] none) 1 1 (.Utf8 []) 3).file_name
        (Mail.mk (CliOptions.mk false false false [] none) 1 1 (.Utf8 []) 5).file_name = true ↔
      (3 : Nat) < 5) :=
  file_name_order_eq_timestamp_order
    (Mail.mk (CliOptions.mk false false false [] none) 1 1 (.Utf8 []) 3)
    (Mail.mk (CliOptions.mk false false false [] none) 1 1 (.Utf8 []) 5)
    (by decide) (by decide)

/-- Claim C8: two records captured *sequentially* by the same process (same
`pid`/`ppid`) have distinct file names: each capture sleeps at least
1000 ns before reading the (monotone) microsecond clock, so the second
timestamp is strictly larger, and the file name determines the timestamp
injectively. -/
theorem sequential_capture_names_distinct (o1 o2 : CliOptions) (r1 r2 : RStr)
    (pid ppid : Int) (c : Clock) (e1 e2 : Nat) :
    (Mail.new o1 r1 pid ppid c e1).1.file_name ≠
      (Mail.new o2 r2 pid ppid (Mail.new o1 r1 pid ppid c e1).2 e2).1.file_name := by
  intro h
  have hts : (Mail.new o1 r1 pid ppid c e1).1.timestamp_us =
      (Mail.new o2 r2 pid ppid (Mail.new o1 r1 pid ppid c e1).2 e2).1.timestamp_us :=
    file_name_inj_timestamp rfl rfl h
  simp only [Mail.new] at hts
  have hmono : (c.now_ns + 1000 + e1 + 1000) / 1000 ≤
      (c.now_ns + 1000 + e1 + 1000 + e2) / 1000 :=
    Nat.div_le_div_right (by omega)
  have hstep : (c.now_ns + 1000 + e1 + 1000) / 1000 = (c.now_ns + 1000 + e1) / 1000 + 1 :=
    Nat.add_div_right _ (by norm_num)
  omega

/-! ## ASCII and UTF-8 facts -/

theorem isValidUtf8_of_ascii : ∀ l : List Nat, (∀ b ∈ l, b ≤ 0x7F) → isValidUtf8 l = true := by
  intro l
  induction l with
  | nil => intro _; rfl
  | cons b rest ih =>
    intro h
    have hb : b ≤ 0x7F := h b (List.mem_cons_self _ _)
    rw [isValidUtf8, utf8Scan, if_pos hb]
    exact ih (fun x hx => h x (List.mem_cons_of_mem _ hx))

theorem natDec_digits (n : Nat) : ∀ b ∈ natDec n, isDigitB b = true := by
  rw [natDec_eq_map]
  intro b hb
  simp only [List.mem_map] at hb
  obtain ⟨d, hd, rfl⟩ := hb
  have := natDigitsBE_lt_ten n d hd
  simp only [isDigitB, Bool.and_eq_true, decide_eq_true_eq]
  omega

theorem natDec_ascii (n : Nat) : ∀ b ∈ natDec n, b ≤ 0x7F := by
  intro b hb
  have h := natDec_digits n b hb
  simp only [isDigitB, Bool.and_eq_true, decide_eq_true_eq] at h
  omega

theorem natDec_ne_nil (n : Nat) : natDec n ≠ [] := by
  unfold natDec
  split
  · simp
  · simp only [ne_eq, List.map_eq_nil_iff, List.reverse_eq_nil_iff, natDigitsRev_eq]
    exact Nat.digits_ne_nil_iff_ne_zero.mpr (by assumption)

theorem file_name_ascii (m : Mail) (hpid : 0 ≤ m.pid) (hppid : 0 ≤ m.ppid) :
    ∀ b ∈ m.file_name, b ≤ 0x7F := by
  intro b hb
  rw [Mail.file_name, intDec_nonneg hpid, intDec_nonneg hppid] at hb
  have h1 : ∀ x ∈ strB "trapmail_", x ≤ 0x7F := by decide
  have h2 : ∀ x ∈ strB ".json", x ≤ 0x7F := by decide
  simp only [List.mem_append, List.mem_singleton] at hb
  rcases hb with ((((((hb | hb) | hb) | hb) | hb) | hb) | hb)
  · exact h1 b hb
  · exact natDec_ascii _ b hb
  · omega
  · exact natDec_ascii _ b hb
  · omega
  · exact natDec_ascii _ b hb
  · exact h2 b hb

theorem file_name_valid_utf8 (m : Mail) (hpid : 0 ≤ m.pid) (hppid : 0 ≤ m.ppid) :
    isValidUtf8 m.file_name = true :=
  isValidUtf8_of_ascii _ (file_name_ascii m hpid hppid)

/-! ## Sorting: membership -/

theorem mem_insertLex {x y : RStr} : ∀ l : List RStr, (x ∈ insertLex y l ↔ x = y ∨ x ∈ l) := by
  intro l
  induction l with
  | nil => simp [insertLex]
  | cons z zs ih =>
    rw [insertLex]
    split
    · simp [List.mem_cons]
    · rw [List.mem_cons, ih, List.mem_cons]
      tauto

theorem mem_sortLex {x : RStr} : ∀ l : List RStr, (x ∈ sortLex l ↔ x ∈ l) := by
  intro l
  induction l with
  | nil => simp [sortLex]
  | cons y ys ih => simp [sortLex, mem_insertLex, ih]

/-! ## The filter regex: generated names match; the filter is wider than
the spec's exact shape -/

theorem leadsWith_append (p r : RStr) : leadsWith p (p ++ r) = true := by
  induction p with
  | nil => rfl
  | cons a as ih => simp [leadsWith, ih]

theorem leadsWith_ex {p : RStr} : ∀ {s : RStr}, leadsWith p s = true → ∃ r, s = p ++ r := by
  induction p with
  | nil => intro s _; exact ⟨s, rfl⟩
  | cons a as ih =>
    intro s h
    cases s with
    | nil => simp [leadsWith] at h
    | cons b bs =>
      simp only [leadsWith, Bool.and_eq_true, beq_iff_eq] at h
      obtain ⟨r, hr⟩ := ih h.2
      exact ⟨r, by rw [hr, h.1, List.cons_append]⟩

theorem takeWhile_all_append (p : Nat → Bool) (l1 : RStr) (c : Nat) (l2 : RStr)
    (h1 : ∀ b ∈ l1, p b = true) (hc : p c = false) :
    (l1 ++ c :: l2).takeWhile p = l1 := by
  induction l1 with
  | nil => simp [List.takeWhile_cons, hc]
  | cons a as ih =>
    simp only [List.cons_append, List.takeWhile_cons, h1 a (List.mem_cons_self _ _), if_true]
    rw [ih (fun x hx => h1 x (List.mem_cons_of_mem _ hx))]

theorem dropWhile_all_append (p : Nat → Bool) (l1 : RStr) (c : Nat) (l2 : RStr)
    (h1 : ∀ b ∈ l1, p b = true) (hc : p c = false) :
    (l1 ++ c :: l2).dropWhile p = c :: l2 := by
  induction l1 with
  | nil => simp [List.dropWhile_cons, hc]
  | cons a as ih =>
    simp only [List.cons_append, List.dropWhile_cons, h1 a (List.mem_cons_self _ _), if_true]
    exact ih (fun x hx => h1 x (List.mem_cons_of_mem _ hx))

theorem isNd_of_digit {b : Nat} (h : isDigitB b = true) : isNd b = true := by
  rw [isNd]
  exact List.any_eq_true.mpr ⟨(48, 57), by decide, h⟩

theorem digitsDotJson_digits_json (d : List Nat) : d ≠ [] → (∀ b ∈ d, isNd b = true) →
    digitsDotJson (d ++ strB ".json") = true := by
  induction d with
  | nil => intro h _; exact absurd rfl h
  | cons a as ih =>
    intro _ hd
    rw [List.cons_append, digitsDotJson, hd a (List.mem_cons_self _ _)]
    simp only [Bool.true_and, Bool.or_eq_true]
    cases as with
    | nil =>
      left
      decide
    | cons b bs =>
      right
      exact ih (by simp) (fun x hx => hd x (List.mem_cons_of_mem _ hx))

/-- Building block shared by the shape lemmas: the name laid out as
header, three groups of `p`-characters and the trailing `.json`, for any
character class `p` that excludes `_` and `.`. -/
theorem shape_layout (p : Nat → Bool) (hp95 : p 95 = false) (hp46 : p 46 = false)
    (d1 d2 d3 : List Nat)
    (hd1 : ∀ b ∈ d1, p b = true) (hd2 : ∀ b ∈ d2, p b = true)
    (hd3 : ∀ b ∈ d3, p b = true) :
    ((strB "trapmail_" ++ (d1 ++ (95 :: (d2 ++ (95 :: (d3 ++ strB ".json")))))).drop 9 =
        d1 ++ (95 :: (d2 ++ (95 :: (d3 ++ strB ".json"))))) ∧
    ((d1 ++ (95 :: (d2 ++ (95 :: (d3 ++ strB ".json"))))).takeWhile p = d1) ∧
    ((d1 ++ (95 :: (d2 ++ (95 :: (d3 ++ strB ".json"))))).dropWhile p =
        95 :: (d2 ++ (95 :: (d3 ++ strB ".json")))) ∧
    ((d2 ++ (95 :: (d3 ++ strB ".json"))).takeWhile p = d2) ∧
    ((d2 ++ (95 :: (d3 ++ strB ".json"))).dropWhile p = 95 :: (d3 ++ strB ".json")) ∧
    ((d3 ++ strB ".json").takeWhile p = d3) ∧
    ((d3 ++ strB ".json").dropWhile p = strB ".json") := by
  have hdrop : (strB "trapmail_" ++ (d1 ++ (95 :: (d2 ++ (95 :: (d3 ++ strB ".json")))))).drop 9
      = d1 ++ (95 :: (d2 ++ (95 :: (d3 ++ strB ".json")))) := by
    have h9 : (strB "trapmail_").length = 9 := rfl
    rw [← h9, List.drop_left]
  have hj : strB ".json" = 46 :: strB "json" := rfl
  refine ⟨hdrop, takeWhile_all_append _ _ _ _ hd1 hp95,
    dropWhile_all_append _ _ _ _ hd1 hp95,
    takeWhile_all_append _ _ _ _ hd2 hp95,
    dropWhile_all_append _ _ _ _ hd2 hp95, ?_, ?_⟩
  · rw [hj]
    exact takeWhile_all_append _ _ _ _ hd3 hp46
  · rw [hj]
    exact dropWhile_all_append _ _ _ _ hd3 hp46

theorem exactShape_construct (d1 d2 d3 : RStr)
    (h1 : d1 ≠ []) (hd1 : ∀ b ∈ d1, isDigitB b = true)
    (h2 : d2 ≠ []) (hd2 : ∀ b ∈ d2, isDigitB b = true)
    (h3 : d3 ≠ []) (hd3 : ∀ b ∈ d3, isDigitB b = true) :
    trapmailExactShape
      (strB "trapmail_" ++ (d1 ++ (95 :: (d2 ++ (95 :: (d3 ++ strB ".json")))))) = true := by
  obtain ⟨hdrop, ht1, hw1, ht2, hw2, ht3, hw3⟩ :=
    shape_layout isDigitB (by decide) (by decide) d1 d2 d3 hd1 hd2 hd3
  rw [trapmailExactShape, leadsWith_append]
  simp only [Bool.true_and, hdrop, ht1, hw1, ht2, hw2, ht3, hw3]
  simp [List.isEmpty_iff, h1, h2, h3]

theorem matchHere_construct (d1 d2 d3 : List Nat)
    (h1 : d1 ≠ []) (hd1 : ∀ b ∈ d1, isNd b = true)
    (h2 : d2 ≠ []) (hd2 : ∀ b ∈ d2, isNd b = true)
    (h3 : d3 ≠ []) (hd3 : ∀ b ∈ d3, isNd b = true) :
    matchHere
      (strB "trapmail_" ++ (d1 ++ (95 :: (d2 ++ (95 :: (d3 ++ strB ".json")))))) = true := by
  obtain ⟨hdrop, ht1, hw1, ht2, hw2, _, _⟩ :=
    shape_layout isNd (by decide) (by decide) d1 d2 d3 hd1 hd2 hd3
  rw [matchHere, leadsWith_append]
  simp only [Bool.true_and, hdrop, ht1, hw1, ht2, hw2]
  simp [List.isEmpty_iff, h1, h2, digitsDotJson_digits_json d3 h3 hd3]

/-- Dissect a name of the spec's exact shape into its header, three
(ASCII) digit groups and the trailing `.json`. -/
theorem exactShape_decomp {s : RStr} (h : trapmailExactShape s = true) :
    ∃ d1 d2 d3,
      s = strB "trapmail_" ++ (d1 ++ (95 :: (d2 ++ (95 :: (d3 ++ strB ".json"))))) ∧
      d1 ≠ [] ∧ (∀ b ∈ d1, isDigitB b = true) ∧
      d2 ≠ [] ∧ (∀ b ∈ d2, isDigitB b = true) ∧
      d3 ≠ [] ∧ (∀ b ∈ d3, isDigitB b = true) := by
  rw [trapmailExactShape] at h
  simp only [Bool.and_eq_true] at h
  obtain ⟨r, hr⟩ := leadsWith_ex h.1
  have hdrop : s.drop 9 = r := by
    rw [hr]
    have h9 : (strB "trapmail_").length = 9 := rfl
    rw [← h9, List.drop_left]
  have h1 := h.2.1
  have hM := h.2.2
  rw [hdrop] at h1 hM
  split at hM
  case _ t2 heq =>
    simp only [Bool.and_eq_true] at hM
    have h2 := hM.1
    have hM2 := hM.2
    split at hM2
    case _ t4 heq2 =>
      simp only [Bool.and_eq_true, beq_iff_eq] at hM2
      refine ⟨r.takeWhile isDigitB, t2.takeWhile isDigitB, t4.takeWhile isDigitB,
        ?_, ?_, fun b hb => List.mem_takeWhile_imp hb,
        ?_, fun b hb => List.mem_takeWhile_imp hb,
        ?_, fun b hb => List.mem_takeWhile_imp hb⟩
      · rw [hr]
        congr 1
        calc r = r.takeWhile isDigitB ++ r.dropWhile isDigitB :=
              (List.takeWhile_append_dropWhile _ _).symm
          _ = r.takeWhile isDigitB ++ (95 :: t2) := by rw [heq]
          _ = r.takeWhile isDigitB
              ++ (95 :: (t2.takeWhile isDigitB ++ t2.dropWhile isDigitB)) := by
              rw [List.takeWhile_append_dropWhile]
          _ = r.takeWhile isDigitB ++ (95 :: (t2.takeWhile isDigitB ++ (95 :: t4))) := by
              rw [heq2]
          _ = r.takeWhile isDigitB ++ (95 :: (t2.takeWhile isDigitB
              ++ (95 :: (t4.takeWhile isDigitB ++ t4.dropWhile isDigitB)))) := by
              rw [List.takeWhile_append_dropWhile]
          _ = _ := by rw [hM2.2]
      · intro hnil
        rw [hnil] at h1
        simp at h1
      · intro hnil
        rw [hnil] at h2
        simp at h2
      · intro hnil
        rw [hnil] at hM2
        simp at hM2
    case _ => simp at hM2
  case _ => simp at hM

/-- Names built from the exact-shape layout are pure ASCII. -/
theorem ascii_shape (d1 d2 d3 : RStr)
    (hd1 : ∀ b ∈ d1, isDigitB b = true) (hd2 : ∀ b ∈ d2, isDigitB b = true)
    (hd3 : ∀ b ∈ d3, isDigitB b = true) :
    ∀ b ∈ strB "trapmail_" ++ (d1 ++ (95 :: (d2 ++ (95 :: (d3 ++ strB ".json"))))),
      b ≤ 0x7F := by
  intro b hb
  have hdig : ∀ {x : Nat}, isDigitB x = true → x ≤ 0x7F := by
    intro x hx
    simp only [isDigitB, Bool.and_eq_true, decide_eq_true_eq] at hx
    omega
  simp only [List.mem_append, List.mem_cons] at hb
  rcases hb with hb | hb | hb | hb | hb | hb | hb
  · exact (by decide : ∀ x ∈ strB "trapmail_", x ≤ 0x7F) b hb
  · exact hdig (hd1 b hb)
  · omega
  · exact hdig (hd2 b hb)
  · omega
  · exact hdig (hd3 b hb)
  · exact (by decide : ∀ x ∈ strB ".json", x ≤ 0x7F) b hb

/-- An all-ASCII byte string decodes to itself: each byte is one
character. -/
theorem utf8Decode_ascii : ∀ l : List Nat, (∀ b ∈ l, b ≤ 0x7F) → utf8Decode l = some l := by
  intro l
  induction l with
  | nil => intro _; rfl
  | cons b bs ih =>
    intro h
    have hb : b ≤ 0x7F := h b (List.mem_cons_self _ _)
    have hbs := ih (fun x hx => h x (List.mem_cons_of_mem _ hx))
    simp only [utf8Decode] at hbs ⊢
    rw [utf8DecScan, if_pos hb, hbs]
    rfl

/-- The pending-0 state of the validator ignores the carried bounds. -/
theorem utf8Scan_zero (l : List Nat) (lo hi : Nat) : utf8Scan l 0 lo hi = utf8Scan l 0 0 0 := by
  cases l with
  | nil => rfl
  | cons b bs => rfl

/-- The decoder succeeds exactly on the byte strings the validator
accepts: `utf8Decode` and `String::from_utf8`'s check agree. -/
theorem utf8Decode_isSome_eq (l : List Nat) : (utf8Decode l).isSome = isValidUtf8 l := by
  have key : ∀ (l : List Nat) (p lo hi acc : Nat),
      (utf8DecScan l p lo hi acc).isSome = utf8Scan l p lo hi := by
    intro l
    induction l with
    | nil =>
      intro p lo hi acc
      rw [utf8DecScan, utf8Scan]
      cases hp : p == 0 <;> simp [hp]
    | cons b bs ih =>
      intro p lo hi acc
      match p with
      | 0 =>
        rw [utf8DecScan, utf8Scan]
        split_ifs <;> simp [Option.isSome_map', ih]
      | 1 =>
        rw [utf8DecScan, utf8Scan]
        split_ifs
        · rw [Option.isSome_map', ih, utf8Scan_zero]
          exact (utf8Scan_zero bs 128 191).symm
        · rfl
      | q + 2 =>
        rw [utf8DecScan, utf8Scan]
        split_ifs
        · exact ih (q + 1) 0x80 0xBF _
        · rfl
  exact key l 0 0 0 0

theorem reMatch_of_matchHere {s : List Nat} (h : matchHere s = true) :
    reMatchChars s = true := by
  cases s with
  | nil => exact absurd h (by decide)
  | cons c cs =>
    rw [reMatchChars, h]
    rfl

/-- Every name of the spec's exact shape is accepted by `FILENAME_RE`:
it is ASCII, so it decodes to itself, and its ASCII digits are `Nd`
characters. -/
theorem is_match_of_exact {s : RStr} (h : trapmailExactShape s = true) :
    filename_re_is_match s = true := by
  obtain ⟨d1, d2, d3, hs, h1, hd1, h2, hd2, h3, hd3⟩ := exactShape_decomp h
  have hdec : utf8Decode s = some s := by
    rw [hs]
    exact utf8Decode_ascii _ (ascii_shape d1 d2 d3 hd1 hd2 hd3)
  simp only [filename_re_is_match, hdec]
  rw [hs]
  exact reMatch_of_matchHere (matchHere_construct d1 d2 d3
    h1 (fun b hb => isNd_of_digit (hd1 b hb))
    h2 (fun b hb => isNd_of_digit (hd2 b hb))
    h3 (fun b hb => isNd_of_digit (hd3 b hb)))

theorem file_name_layout (m : Mail) (hpid : 0 ≤ m.pid) (hppid : 0 ≤ m.ppid) :
    m.file_name = strB "trapmail_" ++ (natDec m.timestamp_us ++
      (95 :: (natDec m.ppid.toNat ++ (95 :: (natDec m.pid.toNat ++ strB ".json"))))) := by
  rw [Mail.file_name, intDec_nonneg hpid, intDec_nonneg hppid]
  simp [List.append_assoc]

theorem file_name_exact (m : Mail) (hpid : 0 ≤ m.pid) (hppid : 0 ≤ m.ppid) :
    trapmailExactShape m.file_name = true := by
  rw [file_name_layout m hpid hppid]
  exact exactShape_construct _ _ _ (natDec_ne_nil _) (natDec_digits _) (natDec_ne_nil _)
    (natDec_digits _) (natDec_ne_nil _) (natDec_digits _)

/-- Every generated file name is accepted by the store's filter. -/
theorem file_name_is_match (m : Mail) (hpid : 0 ≤ m.pid) (hppid : 0 ≤ m.ppid) :
    filename_re_is_match m.file_name = true :=
  is_match_of_exact (file_name_exact m hpid hppid)

/-! ## Serialization round-trips -/

theorem jStrList_roundtrip (l : List RStr) : jStrList (l.map .str) = some l := by
  induction l with
  | nil => rfl
  | cons s rest ih => simp [jStrList, jStr, ih]

theorem jByteList_roundtrip (l : List Nat) (h : ∀ b ∈ l, b < 256) :
    jByteList (l.map (fun (b : Nat) => .num (b : Int))) = some l := by
  induction l with
  | nil => rfl
  | cons b rest ih =>
    have hb : b < 256 := h b (List.mem_cons_self _ _)
    have hb' : (0 : Int) ≤ (b : Int) ∧ (b : Int) < 256 := by
      constructor
      · exact Int.natCast_nonneg b
      · exact_mod_cast hb
    rw [List.map_cons, jByteList, jByte, if_pos hb',
      ih (fun x hx => h x (List.mem_cons_of_mem _ hx))]
    simp

/-- Evaluated comparisons of the `CliOptions` field keys, as `find?`
meets them. -/
theorem cliKeysEval :
    (strB "debug" == strB "debug") = true ∧
    (strB "debug" == strB "ignore_dots") = false ∧
    (strB "ignore_dots" == strB "ignore_dots") = true ∧
    (strB "debug" == strB "inline_recipients") = false ∧
    (strB "ignore_dots" == strB "inline_recipients") = false ∧
    (strB "inline_recipients" == strB "inline_recipients") = true ∧
    (strB "debug" == strB "addresses") = false ∧
    (strB "ignore_dots" == strB "addresses") = false ∧
    (strB "inline_recipients" == strB "addresses") = false ∧
    (strB "addresses" == strB "addresses") = true ∧
    (strB "debug" == strB "dump") = false ∧
    (strB "ignore_dots" == strB "dump") = false ∧
    (strB "inline_recipients" == strB "dump") = false ∧
    (strB "addresses" == strB "dump") = false ∧
    (strB "dump" == strB "dump") = true := by decide

/-- Evaluated comparisons of the `Mail` field keys, as `find?` meets
them. -/
theorem mailKeysEval :
    (strB "cli_options" == strB "cli_options") = true ∧
    (strB "cli_options" == strB "pid") = false ∧
    (strB "pid" == strB "pid") = true ∧
    (strB "cli_options" == strB "ppid") = false ∧
    (strB "pid" == strB "ppid") = false ∧
    (strB "ppid" == strB "ppid") = true ∧
    (strB "cli_options" == strB "body") = false ∧
    (strB "pid" == strB "body") = false ∧
    (strB "ppid" == strB "body") = false ∧
    (strB "body" == strB "body") = true ∧
    (strB "cli_options" == strB "timestamp_us") = false ∧
    (strB "pid" == strB "timestamp_us") = false ∧
    (strB "ppid" == strB "timestamp_us") = false ∧
    (strB "body" == strB "timestamp_us") = false ∧
    (strB "timestamp_us" == strB "timestamp_us") = true := by decide

theorem mailBodyFromJson_toJson (body : MailBody) (hwf : body.wfB = true) :
    MailBody.fromJson body.toJson = some body := by
  cases body with
  | Utf8 s => simp [MailBody.toJson, MailBody.fromJson, jStr]
  | Invalid bs =>
    have hb : ∀ b ∈ bs, b < 256 := by
      rw [MailBody.wfB, List.all_eq_true] at hwf
      intro b hbm
      have := hwf b hbm
      simpa using this
    rw [MailBody.toJson, MailBody.fromJson]
    simp +decide [jByteList_roundtrip bs hb]

theorem cliOptionsFromJson_toJson (o : CliOptions) (hwf : dumpWfB o.dump = true) :
    ∃ j, o.toJson = .ok j ∧ CliOptions.fromJson j = some o := by
  cases o with
  | mk d ig ir addrs dmp =>
    cases dmp with
    | none =>
      refine ⟨_, rfl, ?_⟩
      simp [CliOptions.fromJson, jField, List.find?, jBool, jDump, jAddrs,
        jStrList_roundtrip, oBind, cliKeysEval]
    | some p =>
      rw [dumpWfB] at hwf
      refine ⟨Json.obj [(strB "debug", .bool d), (strB "ignore_dots", .bool ig),
          (strB "inline_recipients", .bool ir), (strB "addresses", .arr (addrs.map .str)),
          (strB "dump", .str p)], ?_, ?_⟩
      · rw [CliOptions.toJson]
        simp only [pathToJson, hwf, if_true]
        rfl
      · simp [CliOptions.fromJson, jField, List.find?, jBool, jDump, jAddrs,
          jStrList_roundtrip, oBind, cliKeysEval]

theorem jField_cons_self (k : RStr) (v : Json) (rest : List (RStr × Json)) :
    jField ((k, v) :: rest) k = some v := by
  simp [jField, List.find?]

theorem jField_cons_ne (k k' : RStr) (v : Json) (rest : List (RStr × Json))
    (h : (k' == k) = false) : jField ((k', v) :: rest) k = jField rest k := by
  simp [jField, List.find?, h]

theorem oBind_some {A B : Type} (a : A) (f : A → Option B) : oBind (some a) f = f a := rfl

set_option maxRecDepth 8192

theorem Mail.toJson_fromJson (m : Mail) (hwf : m.WF) :
    ∃ j, m.toJson = .ok j ∧ Mail.fromJson j = some m := by
  obtain ⟨hpid, hppid, hts, hbody, haddrs, hdump⟩ := hwf
  obtain ⟨cliJ, hcli1, hcli2⟩ := cliOptionsFromJson_toJson m.cli_options hdump
  have hpid' : -(2 ^ 31) ≤ m.pid ∧ m.pid < 2 ^ 31 := hpid
  have hppid' : -(2 ^ 31) ≤ m.ppid ∧ m.ppid < 2 ^ 31 := hppid
  have hts' : (0 : Int) ≤ Int.ofNat m.timestamp_us ∧ Int.ofNat m.timestamp_us < 2 ^ 128 := by
    rw [Int.ofNat_eq_natCast]
    refine ⟨Int.natCast_nonneg _, ?_⟩
    exact_mod_cast hts
  have hbodyJ := mailBodyFromJson_toJson m.body hbody
  refine ⟨Json.obj [(strB "cli_options", cliJ), (strB "pid", .num m.pid),
      (strB "ppid", .num m.ppid), (strB "body", m.body.toJson),
      (strB "timestamp_us", .num (Int.ofNat m.timestamp_us))], ?_, ?_⟩
  · rw [Mail.toJson, hcli1]
    rfl
  · have f1 : jField [(strB "cli_options", cliJ), (strB "pid", .num m.pid),
        (strB "ppid", .num m.ppid), (strB "body", m.body.toJson),
        (strB "timestamp_us", .num (Int.ofNat m.timestamp_us))] (strB "cli_options")
        = some cliJ := jField_cons_self _ _ _
    have f2 : jField [(strB "cli_options", cliJ), (strB "pid", .num m.pid),
        (strB "ppid", .num m.ppid), (strB "body", m.body.toJson),
        (strB "timestamp_us", .num (Int.ofNat m.timestamp_us))] (strB "pid")
        = some (.num m.pid) := by
      rw [jField_cons_ne _ _ _ _ mailKeysEval.2.1, jField_cons_self]
    have f3 : jField [(strB "cli_options", cliJ), (strB "pid", .num m.pid),
        (strB "ppid", .num m.ppid), (strB "body", m.body.toJson),
        (strB "timestamp_us", .num (Int.ofNat m.timestamp_us))] (strB "ppid")
        = some (.num m.ppid) := by
      rw [jField_cons_ne _ _ _ _ mailKeysEval.2.2.2.1,
        jField_cons_ne _ _ _ _ mailKeysEval.2.2.2.2.1, jField_cons_self]
    have f4 : jField [(strB "cli_options", cliJ), (strB "pid", .num m.pid),
        (strB "ppid", .num m.ppid), (strB "body", m.body.toJson),
        (strB "timestamp_us", .num (Int.ofNat m.timestamp_us))] (strB "body")
        = some m.body.toJson := by
      rw [jField_cons_ne _ _ _ _ mailKeysEval.2.2.2.2.2.2.1,
        jField_cons_ne _ _ _ _ mailKeysEval.2.2.2.2.2.2.2.1,
        jField_cons_ne _ _ _ _ mailKeysEval.2.2.2.2.2.2.2.2.1, jField_cons_self]
    have f5 : jField [(strB "cli_options", cliJ), (strB "pid", .num m.pid),
        (strB "ppid", .num m.ppid), (strB "body", m.body.toJson),
        (strB "timestamp_us", .num (Int.ofNat m.timestamp_us))] (strB "timestamp_us")
        = some (.num (Int.ofNat m.timestamp_us)) := by
      rw [jField_cons_ne _ _ _ _ mailKeysEval.2.2.2.2.2.2.2.2.2.2.1,
        jField_cons_ne _ _ _ _ mailKeysEval.2.2.2.2.2.2.2.2.2.2.2.1,
        jField_cons_ne _ _ _ _ mailKeysEval.2.2.2.2.2.2.2.2.2.2.2.2.1,
        jField_cons_ne _ _ _ _ mailKeysEval.2.2.2.2.2.2.2.2.2.2.2.2.2.1, jField_cons_self]
    have hp : jI32 (Json.num m.pid) = some m.pid := by
      rw [jI32, if_pos hpid']
    have hpp : jI32 (Json.num m.ppid) = some m.ppid := by
      rw [jI32, if_pos hppid']
    have ht : jU128 (Json.num (Int.ofNat m.timestamp_us)) = some m.timestamp_us := by
      rw [jU128, if_pos hts']
      rfl
    rw [Mail.fromJson, f1, oBind_some, hcli2, oBind_some, f2, oBind_some, hp, oBind_some,
      f3, oBind_some, hpp, oBind_some, f4, oBind_some, hbodyJ, oBind_some,
      f5, oBind_some, ht, oBind_some]

/-- Loading the document `add` wrote: the full record comes back. -/
theorem Mail.load_written (m : Mail) (j : Json) (hj : Mail.fromJson j = some m) :
    Mail.load (.ok j) = .ok m := by
  rw [Mail.load, hj]

/-! ## `from_raw`: totality and byte preservation -/

theorem from_raw_valid (B : RStr) (h : isValidUtf8 B = true) :
    MailBody.from_raw B = .Utf8 B := by
  rw [MailBody.from_raw, stringFromUtf8, if_pos h]

theorem from_raw_invalid (B : RStr) (h : isValidUtf8 B = false) :
    MailBody.from_raw B = .Invalid B := by
  rw [MailBody.from_raw, stringFromUtf8, if_neg (by simp [h])]

theorem from_raw_bytes (B : RStr) : (MailBody.from_raw B).bytes = B := by
  rw [MailBody.from_raw, stringFromUtf8]
  by_cases h : isValidUtf8 B = true
  · rw [if_pos h]
    rfl
  · rw [if_neg h]
    rfl

theorem from_raw_wfB (B : RStr) (h : ∀ b ∈ B, b < 256) :
    (MailBody.from_raw B).wfB = true := by
  rw [MailBody.from_raw, stringFromUtf8]
  by_cases hv : isValidUtf8 B = true
  · rw [if_pos hv]
    exact hv
  · rw [if_neg hv]
    rw [MailBody.wfB, List.all_eq_true]
    intro b hb
    simpa using h b hb

/-! ## Directory and enumeration helpers -/

theorem dirUpsert_fresh (dir : List DirEntry) (n : RStr) (c : FileContent)
    (h : n ∉ dir.map Prod.fst) : dirUpsert dir n c = dir ++ [(n, c)] := by
  induction dir with
  | nil => rfl
  | cons e rest ih =>
    obtain ⟨n', c'⟩ := e
    simp only [List.map_cons, List.mem_cons, not_or] at h
    rw [dirUpsert, if_neg (by simp [Ne.symm h.1]), List.cons_append, ih h.2]

theorem findContent_fresh (dir : List DirEntry) (n : RStr) (c : FileContent)
    (h : n ∉ dir.map Prod.fst) :
    findContent ((dir ++ [(n, c)]).map .ok) n = c := by
  induction dir with
  | nil => simp [findContent]
  | cons e rest ih =>
    obtain ⟨n', c'⟩ := e
    simp only [List.map_cons, List.mem_cons, not_or] at h
    rw [List.cons_append, List.map_cons, findContent, if_neg (by simp [Ne.symm h.1])]
    exact ih h.2

theorem collectNames_ok (dir : List DirEntry) (h : ∀ e ∈ dir, isValidUtf8 e.1 = true) :
    collectNames (dir.map .ok) =
      some (.ok ((dir.map Prod.fst).filter filename_re_is_match)) := by
  induction dir with
  | nil => rfl
  | cons e rest ih =>
    obtain ⟨n, c⟩ := e
    have hn : isValidUtf8 n = true := h (n, c) (List.mem_cons_self _ _)
    have hrest := ih (fun x hx => h x (List.mem_cons_of_mem _ hx))
    rw [List.map_cons, collectNames, if_pos hn, hrest]
    by_cases hf : filename_re_is_match n = true
    · simp [hf, List.filter_cons]
    · simp [hf, List.filter_cons]

/-- Claim C5: `MailBody::from_raw` never fails and loses no data: valid
UTF-8 input becomes the text variant holding exactly the input bytes,
any other input becomes the raw variant holding exactly the original
bytes, including the bytes that failed validation. -/
theorem from_raw_total_lossless (B : RStr) :
    (isValidUtf8 B = true → MailBody.from_raw B = .Utf8 B) ∧
    (isValidUtf8 B = false → MailBody.from_raw B = .Invalid B) ∧
    (MailBody.from_raw B).bytes = B :=
  ⟨from_raw_valid B, from_raw_invalid B, from_raw_bytes B⟩

/-- Witness for C5 at the spec's own examples: the invalid bytes
`[0xFF, 0xFE, 0x00]` and a plain ASCII text. -/
theorem from_raw_total_lossless_witness :
    (isValidUtf8 [0xFF, 0xFE, 0x00] = false ∧
      MailBody.from_raw [0xFF, 0xFE, 0x00] = .Invalid [0xFF, 0xFE, 0x00]) ∧
    (isValidUtf8 (strB "Subject: hi") = true ∧
      MailBody.from_raw (strB "Subject: hi") = .Utf8 (strB "Subject: hi")) ∧
    (MailBody.from_raw [0xFF, 0xFE, 0x00]).bytes = [0xFF, 0xFE, 0x00] :=
  ⟨⟨by decide, (from_raw_total_lossless [0xFF, 0xFE, 0x00]).2.1 (by decide)⟩,
   ⟨by decide, (from_raw_total_lossless (strB "Subject: hi")).1 (by decide)⟩,
   (from_raw_total_lossless [0xFF, 0xFE, 0x00]).2.2⟩

/-- Claim C2: for every byte sequence `B`, serializing `from_raw B` and
deserializing the result yields a body whose underlying bytes are exactly
`B`, whether or not `B` is valid UTF-8 text. -/
theorem body_serialization_roundtrip (B : RStr) (h : ∀ b ∈ B, b < 256) :
    MailBody.fromJson (MailBody.from_raw B).toJson = some (MailBody.from_raw B) ∧
    (MailBody.from_raw B).bytes = B :=
  ⟨mailBodyFromJson_toJson _ (from_raw_wfB B h), from_raw_bytes B⟩

/-- Witness for C2 at the spec's invalid-text example. -/
theorem body_serialization_roundtrip_witness :
    (∀ b ∈ ([0xFF, 0xFE, 0x00] : RStr), b < 256) ∧
    (MailBody.fromJson (MailBody.from_raw [0xFF, 0xFE, 0x00]).toJson
        = some (MailBody.from_raw [0xFF, 0xFE, 0x00]) ∧
      (MailBody.from_raw [0xFF, 0xFE, 0x00]).bytes = [0xFF, 0xFE, 0x00]) :=
  ⟨by decide, body_serialization_roundtrip [0xFF, 0xFE, 0x00] (by decide)⟩

/-- Claim C1: `MailStore::add` followed by `iter_mails` on the same root
yields the just-added record with every field equal: adding a well-formed
mail (fresh file name, nonnegative pids) to a directory of unicode-named
entries and then enumerating returns `Ok` of that very record. -/
theorem add_then_iter_roundtrip (store : MailStore) (m : Mail) (dir : List DirEntry)
    (hwf : m.WF) (hpid : 0 ≤ m.pid) (hppid : 0 ≤ m.ppid)
    (hnames : ∀ e ∈ dir, isValidUtf8 e.1 = true)
    (hfresh : m.file_name ∉ dir.map Prod.fst) :
    ∃ dir', store.add m dir (.ok ()) = (.ok (store.root ++ [47] ++ m.file_name), dir') ∧
      ∃ l, MailStore.iter_mails (.ok (dir'.map .ok)) = some (.ok l) ∧ Except.ok m ∈ l := by
  obtain ⟨j, hj1, hj2⟩ := Mail.toJson_fromJson m hwf
  refine ⟨dirUpsert dir m.file_name (.ok j), ?_, ?_⟩
  · rw [MailStore.add, hj1]
  · rw [dirUpsert_fresh dir _ _ hfresh]
    have hnames' : ∀ e ∈ dir ++ [(m.file_name, (Except.ok j : FileContent))],
        isValidUtf8 e.1 = true := by
      intro e he
      rcases List.mem_append.mp he with h | h
      · exact hnames e h
      · simp only [List.mem_singleton] at h
        subst h
        exact file_name_valid_utf8 m hpid hppid
    rw [MailStore.iter_mails, collectNames_ok _ hnames']
    refine ⟨_, rfl, ?_⟩
    have hmem : m.file_name ∈ sortLex
        (((dir ++ [(m.file_name, (Except.ok j : FileContent))]).map Prod.fst).filter
          filename_re_is_match) := by
      rw [mem_sortLex]
      refine List.mem_filter.mpr ⟨?_, file_name_is_match m hpid hppid⟩
      simp
    have hmap := List.mem_map_of_mem
      (fun n => Mail.load (findContent
        ((dir ++ [(m.file_name, (Except.ok j : FileContent))]).map .ok) n)) hmem
    have hload : Mail.load (findContent
        ((dir ++ [(m.file_name, (Except.ok j : FileContent))]).map .ok) m.file_name)
        = .ok m := by
      rw [findContent_fresh dir _ _ hfresh]
      exact Mail.load_written m j hj2
    simp only [hload] at hmap
    exact hmap

/-- Witness for C1: a concrete mail added to an empty store root. -/
theorem add_then_iter_roundtrip_witness :
    (Mail.mk (CliOptions.mk false false false [] none) 2 1 (.Utf8 (strB "hi")) 3).WF ∧
    (∃ dir', (MailStore.mk (strB "/tmp")).add
        (Mail.mk (CliOptions.mk false false false [] none) 2 1 (.Utf8 (strB "hi")) 3) []
        (.ok ()) = (.ok ((MailStore.mk (strB "/tmp")).root ++ [47] ++
          (Mail.mk (CliOptions.mk false false false [] none) 2 1
            (.Utf8 (strB "hi")) 3).file_name), dir') ∧
      ∃ l, MailStore.iter_mails (.ok (dir'.map .ok)) = some (.ok l) ∧
        Except.ok (Mail.mk (CliOptions.mk false false false [] none) 2 1
          (.Utf8 (strB "hi")) 3) ∈ l) :=
  ⟨by decide, add_then_iter_roundtrip (MailStore.mk (strB "/tmp")) _ [] (by decide)
    (by decide) (by decide) (by decide) (by decide)⟩

/-- Claim C6: a directory-level failure is the single terminal element of
the flattened sequence and iteration stops; over a readable directory
(all entries readable, unicode names) the sequence has exactly one
element per matching file name, each element being the load result of
that file alone — a load or parse failure of one file occupies only its
own (sorted) position and all other files are still yielded. -/
theorem iter_error_handling (e : IoErr) (dir : List DirEntry)
    (hnames : ∀ x ∈ dir, isValidUtf8 x.1 = true) :
    (MailStore.iter_mails (.error e) = some (.error (.DirEnumeration e)) ∧
      flatten_results (Except.error (Error.DirEnumeration e) :
          Except Error (List (Except Error Mail)))
        = [.error (.DirEnumeration e)]) ∧
    MailStore.iter_mails (.ok (dir.map .ok)) = some (.ok
      ((sortLex ((dir.map Prod.fst).filter filename_re_is_match)).map
        (fun n => Mail.load (findContent (dir.map .ok) n)))) := by
  refine ⟨⟨rfl, rfl⟩, ?_⟩
  rw [MailStore.iter_mails, collectNames_ok dir hnames]

/-- Witness for C6: one matching but corrupt file beside one matching
loadable-but-invalid file; both positions are per-file results. -/
theorem iter_error_handling_witness :
    (MailStore.iter_mails (.error 7) = some (.error (.DirEnumeration 7)) ∧
      flatten_results (Except.error (Error.DirEnumeration 7) :
          Except Error (List (Except Error Mail)))
        = [.error (.DirEnumeration 7)]) ∧
    MailStore.iter_mails
        (.ok ([(strB "trapmail_2_1_1.json", (.error 3 : FileContent)),
          (strB "trapmail_1_1_1.json", (.ok .null : FileContent))].map .ok))
      = some (.ok ((sortLex (([(strB "trapmail_2_1_1.json", (.error 3 : FileContent)),
          (strB "trapmail_1_1_1.json", (.ok .null : FileContent))].map
            Prod.fst).filter filename_re_is_match)).map
        (fun n => Mail.load (findContent ([(strB "trapmail_2_1_1.json",
          (.error 3 : FileContent)), (strB "trapmail_1_1_1.json",
          (.ok .null : FileContent))].map .ok) n)))) :=
  iter_error_handling 7 _ (by decide)

/-- Claim C9: `MailStore::add` returns the `Store` error when the file
cannot be created (directory untouched); on a successful create it writes
the serialized document under `root/file_name` and returns exactly that
path, unless serialization fails, in which case the `MailSerialization`
error is returned (no path) and the created file is left empty. -/
theorem add_spec (store : MailStore) (m : Mail) (entries : List DirEntry)
    (createRes : Except IoErr Unit) :
    match createRes, m.toJson with
    | .error e, _ => store.add m entries createRes = (.error (.Store e), entries)
    | .ok _, .ok j => store.add m entries createRes =
        (.ok (store.root ++ [47] ++ m.file_name), dirUpsert entries m.file_name (.ok j))
    | .ok _, .error _ => store.add m entries createRes =
        (.error .MailSerialization, dirUpsert entries m.file_name (.ok .null)) := by
  rcases createRes with e | u
  · simp [MailStore.add]
  · rcases htj : m.toJson with e' | j
    · simp [MailStore.add, htj]
    · simp [MailStore.add, htj]

/-- Claim C10: constructing a `MailStore` is a total, pure operation:
`with_root` stores the given path verbatim and `new` stores the
environment-derived or default path; a bad root is only detected later —
as a `Store` error from `add` or a `DirEnumeration` error from
`iter_mails` — never at construction time. -/
theorem store_construction_total (p : RStr) (e : IoErr)
    (m : Mail) (entries : List DirEntry) :
    (MailStore.with_root p).root = p ∧
    MailStore.new (some p) = MailStore.with_root p ∧
    MailStore.new none = MailStore.with_root DEFAULT_MAIL_STORE_PATH ∧
    MailStore.iter_mails (.error e) = some (.error (.DirEnumeration e)) ∧
    ((MailStore.with_root p).add m entries (.error e)).1 = .error (.Store e) := by
  refine ⟨rfl, rfl, rfl, rfl, ?_⟩
  simp [MailStore.add]

theorem collectMatching_non_unicode (filter : RStr → Bool) (pre : List DirEntry)
    (bad : RStr) (c : FileContent) (post : List (Except IoErr DirEntry))
    (hpre : ∀ x ∈ pre, isValidUtf8 x.1 = true) (hbad : isValidUtf8 bad = false) :
    collectMatching filter (pre.map .ok ++ .ok (bad, c) :: post)
      = .error (.NonUnicodeFilename bad) := by
  induction pre with
  | nil =>
    rw [List.map_nil, List.nil_append, collectMatching, if_neg (by simp [hbad])]
  | cons x rest ih =>
    obtain ⟨n', c'⟩ := x
    rw [List.map_cons, List.cons_append, collectMatching,
      if_pos (hpre (n', c') (List.mem_cons_self _ _)),
      ih (fun y hy => hpre y (List.mem_cons_of_mem _ hy))]
    rfl

theorem collectNames_non_unicode (pre : List DirEntry) (bad : RStr) (c : FileContent)
    (post : List (Except IoErr DirEntry))
    (hpre : ∀ x ∈ pre, isValidUtf8 x.1 = true) (hbad : isValidUtf8 bad = false) :
    collectNames (pre.map .ok ++ .ok (bad, c) :: post) = none := by
  induction pre with
  | nil => rw [List.map_nil, List.nil_append, collectNames, if_neg (by simp [hbad])]
  | cons x rest ih =>
    obtain ⟨n', c'⟩ := x
    rw [List.map_cons, List.cons_append, collectNames,
      if_pos (hpre (n', c') (List.mem_cons_self _ _)),
      ih (fun y hy => hpre y (List.mem_cons_of_mem _ hy))]

/-- Claim C7, amended: a file name that cannot be represented as text is
*not* a per-entry error: the conversion happens before the filter is even
consulted, `read_dir_matching` aborts the whole scan with the terminal
`NonUnicodeFilename` error (entries after it are never enumerated), and
`MailStore::iter_mails` panics on its `.expect` (modelled as `none`). -/
theorem non_unicode_fatal (pre : List DirEntry) (bad : RStr) (c : FileContent)
    (post : List (Except IoErr DirEntry)) (filter : RStr → Bool)
    (hpre : ∀ x ∈ pre, isValidUtf8 x.1 = true) (hbad : isValidUtf8 bad = false) :
    read_dir_matching (.ok (pre.map .ok ++ .ok (bad, c) :: post)) filter
      = .error (.NonUnicodeFilename bad) ∧
    MailStore.iter_mails (.ok (pre.map .ok ++ .ok (bad, c) :: post)) = none := by
  constructor
  · rw [read_dir_matching, collectMatching_non_unicode filter pre bad c post hpre hbad]
    rfl
  · rw [MailStore.iter_mails, collectNames_non_unicode pre bad c post hpre hbad]

/-- Claim C7 counterexample: with the non-unicode name `[0xFF]` first and a
valid matching file second, `read_dir_matching` returns a single terminal
`NonUnicodeFilename` error — the second entry is never enumerated, so
the condition is fatal to the whole scan, not a per-entry element — and
`iter_mails` panics (aborts the process) instead of continuing. -/
theorem non_unicode_counterexample :
    read_dir_matching (.ok [.ok ([0xFF], (.error 0 : FileContent)),
        .ok (strB "trapmail_1_2_3.json", (.ok .null : FileContent))]) filename_re_is_match
      = .error (.NonUnicodeFilename [0xFF]) ∧
    MailStore.iter_mails (.ok [.ok ([0xFF], (.error 0 : FileContent)),
        .ok (strB "trapmail_1_2_3.json", (.ok .null : FileContent))]) = none :=
  ⟨rfl, rfl⟩

/-- Witness for the amended C7 theorem. -/
theorem non_unicode_fatal_witness :
    ((∀ x ∈ [((strB "a.txt", (.error 0 : FileContent)) : DirEntry)],
        isValidUtf8 x.1 = true) ∧ isValidUtf8 [0xFF] = false) ∧
    (read_dir_matching (.ok ([((strB "a.txt", (.error 0 : FileContent)) : DirEntry)].map .ok
          ++ .ok ([0xFF], (.error 0 : FileContent)) :: [])) filename_re_is_match
        = .error (.NonUnicodeFilename [0xFF]) ∧
      MailStore.iter_mails (.ok ([((strB "a.txt", (.error 0 : FileContent)) : DirEntry)].map .ok
          ++ .ok ([0xFF], (.error 0 : FileContent)) :: [])) = none) :=
  ⟨⟨by decide, by decide⟩,
    non_unicode_fatal [(strB "a.txt", .error 0)] [0xFF] (.error 0) [] filename_re_is_match
      (by decide) (by decide)⟩

/-- Claim C4, amended: for a readable directory with unicode names,
enumeration keeps a name iff `FILENAME_RE` accepts it, with the regex
crate's Unicode semantics on the decoded name: `\d` is the Unicode
class `Nd` (not just ASCII `0-9`), the final dot is unescaped (any one
character but a newline), and the pattern is unanchored. Every name of
the spec's exact `trapmail_<digits>_<digits>_<digits>.json` shape is
accepted, but the filter is strictly wider (see the counterexample:
`trapmail_1_2_3_json`, a name with an `é` in place of the dot, and one
with Arabic-Indic digits are all enumerated). -/
theorem iter_filter_amended (dir : List DirEntry)
    (hnames : ∀ x ∈ dir, isValidUtf8 x.1 = true) (n : RStr) :
    (collectNames (dir.map .ok)
        = some (.ok ((dir.map Prod.fst).filter filename_re_is_match)) ∧
      (n ∈ (dir.map Prod.fst).filter filename_re_is_match ↔
        n ∈ dir.map Prod.fst ∧ filename_re_is_match n = true)) ∧
    (trapmailExactShape n = true → filename_re_is_match n = true) :=
  ⟨⟨collectNames_ok dir hnames, by exact List.mem_filter⟩, fun h => is_match_of_exact h⟩

/-- Claim C4 counterexample: three names without the exact shape
`trapmail_<digits>_<digits>_<digits>.json` that `FILENAME_RE` accepts.
`trapmail_1_2_3_json` has no literal dot, but the unescaped `.` matches
the `_`, so a directory containing only that file yields an element for
it (here a deserialization failure) instead of silently excluding it.
The name with the two UTF-8 bytes `C3 A9` (`é`, one character) in place
of the dot is matched by the unescaped `.` as well, and the name whose
digit groups are the Arabic-Indic digits `D9 A1`/`D9 A2`/`D9 A3`
(١, ٢, ٣ — Unicode `Nd` characters) is matched by `\d+`. -/
theorem iter_filter_counterexample :
    filename_re_is_match (strB "trapmail_1_2_3_json") = true ∧
    trapmailExactShape (strB "trapmail_1_2_3_json") = false ∧
    MailStore.iter_mails (.ok [.ok (strB "trapmail_1_2_3_json", (.ok .null : FileContent))])
      = some (.ok [Except.error Error.MailDeserialization]) ∧
    filename_re_is_match (strB "trapmail_1_2_3" ++ [0xC3, 0xA9] ++ strB "json") = true ∧
    trapmailExactShape (strB "trapmail_1_2_3" ++ [0xC3, 0xA9] ++ strB "json") = false ∧
    filename_re_is_match
      (strB "trapmail_" ++ [0xD9, 0xA1, 95, 0xD9, 0xA2, 95, 0xD9, 0xA3] ++ strB ".json")
      = true ∧
    trapmailExactShape
      (strB "trapmail_" ++ [0xD9, 0xA1, 95, 0xD9, 0xA2, 95, 0xD9, 0xA3] ++ strB ".json")
      = false :=
  ⟨rfl, rfl, rfl, rfl, rfl, rfl, rfl⟩

/-- Witness for the amended C4 theorem on a directory holding one junk
file and one record file: the enumeration keeps exactly the names the
regex accepts. -/
theorem iter_filter_amended_witness :
    (∀ x ∈ ([(strB "junk.txt", .error 0), (strB "trapmail_1_2_3.json", .ok .null)] :
        List DirEntry), isValidUtf8 x.1 = true) ∧
    collectNames (([(strB "junk.txt", .error 0), (strB "trapmail_1_2_3.json", .ok .null)] :
        List DirEntry).map .ok)
      = some (.ok ((([(strB "junk.txt", .error 0),
          (strB "trapmail_1_2_3.json", .ok .null)] :
        List DirEntry).map Prod.fst).filter filename_re_is_match)) :=
  ⟨by decide, (iter_filter_amended [(strB "junk.txt", .error 0),
    (strB "trapmail_1_2_3.json", .ok .null)] (by decide) []).1.1⟩
